import Mathlib

namespace Bingo

/-!
Verification of `bingo_generator.py` (sb-bingo).

The Python source is embedded shallowly:
* `random.sample(items, k)` is modelled by an explicit `chosen` argument
  together with the predicate `IsSample chosen items k` (a length-`k`
  sub-permutation: `random.sample` returns `k` elements taken at distinct
  positions, in an arbitrary order).
* The mutable `idx` counter threading through the nested `for` loops of
  `generate_card` becomes explicit state passing (`buildCells`/`buildRows`).
* Page-coordinate arithmetic (floats in reportlab) is idealised over `ℚ`;
  all the literal constants (`LETTER = 612 × 792` points, `inch = 72`,
  `0.75 * inch`, `1.2`, `0.5`) are exact in this model.
* The external collaborators `canvas.stringWidth` (font metrics) is kept
  abstract as a `measure : String → Nat → ℚ` parameter, following the
  spec's abstract-capability interface for text measurement; the standard
  greedy word-wrap of `textwrap.wrap` is implemented concretely
  (`wrapGreedy`).
* `sys.exit(1)` plus the stderr diagnostic of `generate_pdf` becomes
  `Except.error`; canvas side effects of one page are recorded as a `Page`
  value (cell contents and footer string).
-/

/-! ## Card sampling (`generate_card`, source lines 87–119) -/

/-- The condition `use_free_space and rows % 2 == 1 and cols % 2 == 1`
guarding every free-space decision in the source. -/
def freeApplies (rows cols : Nat) (useFree : Bool) : Bool :=
  useFree && rows % 2 == 1 && cols % 2 == 1

/-- `cells_needed = rows * cols`, decremented by one when the free space
applies (source lines 95–97 and 250–252). -/
def cellsNeeded (rows cols : Nat) (useFree : Bool) : Nat :=
  if freeApplies rows cols useFree then rows * cols - 1 else rows * cols

/-- The per-cell free test of the source (lines 107–113 and 170–176):
free space applies and `(r, c)` is `(rows // 2, cols // 2)`. -/
def isFreeCell (rows cols : Nat) (useFree : Bool) (r c : Nat) : Bool :=
  freeApplies rows cols useFree && r == rows / 2 && c == cols / 2

/-- Model of `random.sample(pool, k)`: a possible result is any length-`k`
list that is a permutation of a sublist of `pool` (k distinct positions,
arbitrary order). -/
def IsSample (chosen pool : List String) (k : Nat) : Prop :=
  chosen.length = k ∧ chosen.Subperm pool

/-- Inner `for c in range(cols)` loop of `generate_card`: builds one row,
threading the `idx` counter; `fr c` decides whether column `c` is the free
cell of this row.  `chosen[idx]` is modelled by `getD` (the Python indexing
never goes out of bounds under `IsSample`). -/
def buildCells (chosen : List String) (freeText : String) (fr : Nat → Bool) :
    List Nat → Nat → List String × Nat
  | [], idx => ([], idx)
  | c :: cs, idx =>
    if fr c then
      let rest := buildCells chosen freeText fr cs idx
      (freeText :: rest.1, rest.2)
    else
      let rest := buildCells chosen freeText fr cs (idx + 1)
      (chosen.getD idx "" :: rest.1, rest.2)

/-- Outer `for r in range(rows)` loop of `generate_card`. -/
def buildRows (chosen : List String) (freeText : String) (f : Nat → Nat → Bool) (cols : Nat) :
    List Nat → Nat → List (List String) × Nat
  | [], idx => ([], idx)
  | r :: rs, idx =>
    let row := buildCells chosen freeText (f r) (List.range cols) idx
    let rest := buildRows chosen freeText f cols rs row.2
    (row.1 :: rest.1, rest.2)

/-- `generate_card` (source lines 87–119), with the random sample `chosen`
passed explicitly. -/
def generate_card (chosen : List String) (rows cols : Nat) (useFree : Bool)
    (freeText : String) : List (List String) :=
  (buildRows chosen freeText (isFreeCell rows cols useFree) cols (List.range rows) 0).1

/-- The string held by cell `(r, c)` of a card (`card[r][c]`). -/
def cellAt (card : List (List String)) (r c : Nat) : String :=
  (card.getD r []).getD c ""

/-- `slice chosen i n` is the list `[chosen[i], …, chosen[i+n-1]]` (with
`getD` defaults); description of consecutive draws from the sample. -/
def slice (chosen : List String) : Nat → Nat → List String
  | _, 0 => []
  | i, n + 1 => chosen.getD i "" :: slice chosen (i + 1) n

/-- Flat row-major index of a non-free cell into `chosen`: the cell at
row-major position `j = r*cols + c` holds `chosen[j]`, shifted down by one
past the reserved center. -/
def adjIdx (rows cols : Nat) (useFree : Bool) (r c : Nat) : Nat :=
  if freeApplies rows cols useFree && decide (rows / 2 * cols + cols / 2 < r * cols + c)
  then r * cols + c - 1 else r * cols + c

/-! ## Text fitting (`_draw_cell_text`, source lines 191–236) -/

/-- `CELL_FONT_SIZE = 11` (source line 55). -/
def CELL_FONT_SIZE : Nat := 11

/-- Python `range(a, b, -1)`: the descending list `[a, a-1, …, b+1]`. -/
def descRange : Nat → Nat → List Nat
  | 0, _ => []
  | a + 1, b => if b < a + 1 then (a + 1) :: descRange a b else []

/-- The candidate font sizes `range(CELL_FONT_SIZE, 5, -1) = [11, …, 6]`
tried by `_draw_cell_text` (source line 208). -/
def candidateSizes : List Nat := descRange CELL_FONT_SIZE 5

/-- Python `int()` on a rational: truncation toward zero. -/
def ratTrunc (q : ℚ) : ℤ := if q < 0 then -(Int.floor (-q)) else Int.floor q

/-- The character wrap width `max(int(max_w / (size * 0.5)), 8)` passed to
`textwrap.wrap` (source lines 210 and 225). -/
def wrapWidth (max_w : ℚ) (size : Nat) : Nat :=
  (max (ratTrunc (max_w / ((size : ℚ) * 0.5))) 8).toNat

/-- Character-level word splitter: accumulates the current word (reversed)
and emits it at each space, dropping empty words. -/
def splitWordsAux : List Char → List Char → List (List Char)
  | [], acc => if acc.isEmpty then [] else [acc.reverse]
  | c :: cs, acc =>
    if c = ' ' then
      if acc.isEmpty then splitWordsAux cs []
      else acc.reverse :: splitWordsAux cs []
    else splitWordsAux cs (c :: acc)

/-- Words of a text, split on spaces (collapsing runs of whitespace and
dropping empty words, as `textwrap.wrap` does). -/
def splitWords (text : String) : List String :=
  (splitWordsAux text.toList []).map (fun cs => String.mk cs)

/-- Fuel-driven chunking of an over-long word into pieces of at most
`width` characters. -/
def chunkWordGo (width : Nat) : Nat → List Char → List (List Char)
  | _, [] => []
  | 0, cs => [cs]
  | fuel + 1, cs =>
    if cs.length ≤ width then [cs]
    else cs.take width :: chunkWordGo width fuel (cs.drop width)

/-- Break a single word longer than `width` into `width`-sized chunks
(`textwrap.wrap` with its default `break_long_words=True`). -/
def chunkWord (width : Nat) (w : String) : List String :=
  (chunkWordGo width w.length w.toList).map (fun cs => String.mk cs)

/-- Greedy line filling: keep appending the next word (plus a separating
space) while the line stays within `width` characters. -/
def fillGreedy (width : Nat) : String → List String → List String
  | cur, [] => [cur]
  | cur, w :: ws =>
    if cur.length + 1 + w.length ≤ width then fillGreedy width (cur ++ " " ++ w) ws
    else cur :: fillGreedy width w ws

/-- Modelled from the spec: `textwrap.wrap(text, width)` — the Python
standard-library collaborator is not part of the repository, and is
described by the spec as standard greedy word-wrap: break at word
boundaries, never mid-word unless a single word exceeds the line width
(then it is chunked). `wrap("") = []`. -/
def wrapGreedy (text : String) (width : Nat) : List String :=
  match ((splitWords text).map (chunkWord width)).flatten with
  | [] => []
  | w :: ws => fillGreedy width w ws

/-- One iteration body of the size-search loop (source lines 209–220): at
font size `size` the wrapped text fits if the total block height
`len(wrapped) * size * 1.2` is at most `max_h` and every wrapped line
measures at most `max_w`.  `measure` abstracts `canvas.stringWidth`. -/
def fitsAt (measure : String → Nat → ℚ) (text : String) (max_w max_h : ℚ)
    (size : Nat) : Bool :=
  let wrapped := wrapGreedy text (wrapWidth max_w size)
  let line_height : ℚ := (size : ℚ) * 1.2
  let total_text_h : ℚ := (wrapped.length : ℚ) * line_height
  decide (total_text_h ≤ max_h) && wrapped.all (fun line => decide (measure line size ≤ max_w))

/-- The `for size in range(CELL_FONT_SIZE, 5, -1): … if fits: break` loop
with its `else: size = 6` fallback (source lines 208–227): the first (that
is, largest) fitting candidate size wins, and when none fits the minimum
size 6 is used with its wrapping.  Returns the chosen size and the wrapped
lines left in scope for drawing. -/
def pickSize (measure : String → Nat → ℚ) (text : String) (max_w max_h : ℚ) :
    Nat × List String :=
  match candidateSizes.find? (fitsAt measure text max_w max_h) with
  | some size => (size, wrapGreedy text (wrapWidth max_w size))
  | none => (6, wrapGreedy text (wrapWidth max_w 6))

/-- `_draw_cell_text` layout computation (source lines 200–227):
`padding = 4`, `max_w = w - 2*padding`, `max_h = h - 2*padding`, then the
size search. -/
def draw_cell_text (measure : String → Nat → ℚ) (text : String) (w h : ℚ) :
    Nat × List String :=
  let padding : ℚ := 4
  pickSize measure text (w - 2 * padding) (h - 2 * padding)

/-- A width measure proportional to the character count (a fixed-pitch
font metric); used to instantiate the abstract `measure` capability. -/
def measureLen (line : String) (size : Nat) : ℚ := (line.length : ℚ) * (size : ℚ)

/-- A measure under which nothing fits a small cell; instantiates the
no-candidate-fits scenario. -/
def measureWide (_ : String) (_ : Nat) : ℚ := 1000

/-- Per-character advance widths of a proportional font, in ems: the values
222/1000 for the letter i and 944/1000 for the letter W are the Helvetica
AFM advance widths used by `canvas.stringWidth`. -/
def helvCharWidth (c : Char) : ℚ := if c = 'i' then 0.222 else if c = 'W' then 0.944 else 0.5

/-- Proportional-font instantiation of `canvas.stringWidth`: sum of the
per-character widths, scaled by the font size. -/
def measureHelv (line : String) (size : Nat) : ℚ :=
  ((line.toList.map helvCharWidth).sum) * (size : ℚ)

/-! ## Page geometry (`_draw_card`, source lines 122–188) -/

/-- `inch = 72` points (reportlab). -/
def inch : ℚ := 72

/-- `PAGE_WIDTH` of `LETTER` = 8.5 in = 612 pt (source line 51). -/
def PAGE_WIDTH : ℚ := 612

/-- `PAGE_HEIGHT` of `LETTER` = 11 in = 792 pt (source line 51). -/
def PAGE_HEIGHT : ℚ := 792

/-- `MARGIN = 0.75 * inch` (source line 52). -/
def MARGIN : ℚ := 0.75 * inch

/-- `TITLE_FONT_SIZE = 28` (source line 53). -/
def TITLE_FONT_SIZE : ℚ := 28

/-- `FOOTER_FONT_SIZE = 10` (source line 54). -/
def FOOTER_FONT_SIZE : ℚ := 10

/-- `HEADER_GAP = 0.35 * inch` (source line 56). -/
def HEADER_GAP : ℚ := 0.35 * inch

/-- `FOOTER_GAP = 0.30 * inch` (source line 57). -/
def FOOTER_GAP : ℚ := 0.30 * inch

/-- `usable_w = PAGE_WIDTH - 2 * MARGIN` (source line 134). -/
def usable_w : ℚ := PAGE_WIDTH - 2 * MARGIN

/-- `title_y = PAGE_HEIGHT - MARGIN` (source line 140). -/
def title_y : ℚ := PAGE_HEIGHT - MARGIN

/-- `grid_top = title_y - TITLE_FONT_SIZE - HEADER_GAP` (source line 150). -/
def grid_top : ℚ := title_y - TITLE_FONT_SIZE - HEADER_GAP

/-- `footer_y = MARGIN` (source line 146). -/
def footer_y : ℚ := MARGIN

/-- `grid_bottom = footer_y + FOOTER_FONT_SIZE + FOOTER_GAP` (source line 151). -/
def grid_bottom : ℚ := footer_y + FOOTER_FONT_SIZE + FOOTER_GAP

/-- `grid_height = grid_top - grid_bottom` (source line 152). -/
def grid_height : ℚ := grid_top - grid_bottom

/-- `cell_w = grid_width / cols` with `grid_width = usable_w` (lines 153–155). -/
def cell_w (cols : Nat) : ℚ := usable_w / (cols : ℚ)

/-- `cell_h = grid_height / rows` (source line 156). -/
def cell_h (rows : Nat) : ℚ := grid_height / (rows : ℚ)

/-- An axis-aligned rectangle in page coordinates (origin bottom-left). -/
structure Rect where
  x : ℚ
  y : ℚ
  w : ℚ
  h : ℚ
  deriving DecidableEq

/-- The rectangle of cell `(r, c)` as drawn by `_draw_card` (lines 164–184):
`x = grid_x + c * cell_w`, `y = grid_y + (rows - 1 - r) * cell_h`, so that
row 0 sits at the top of the grid region. -/
def cellRect (rows cols r c : Nat) : Rect :=
  { x := MARGIN + (c : ℚ) * cell_w cols
    y := grid_bottom + ((rows : ℚ) - 1 - (r : ℚ)) * cell_h rows
    w := cell_w cols
    h := cell_h rows }

/-! ## Driver (`generate_pdf`, source lines 239–268) -/

/-- The visible content of one output page, as issued by `_draw_card`:
the card's cells and the footer string drawn at the bottom
(`f"Card #{card_number}"`, source line 147). -/
structure Page where
  card : List (List String)
  cardNumber : Nat
  footer : String
  deriving DecidableEq

/-- A default page (used only as the `getD` fallback). -/
def emptyPage : Page := { card := [], cardNumber := 0, footer := "" }

/-- `_draw_card`'s observable page content: the card plus the 1-indexed
footer label. -/
def draw_card (card : List (List String)) (cardNumber : Nat) : Page :=
  { card := card, cardNumber := cardNumber, footer := "Card #" ++ toString cardNumber }

/-- The stderr diagnostic of `generate_pdf` (source lines 255–259). -/
def insufficientMsg (needed avail rows cols : Nat) : String :=
  "Error: need at least " ++ toString needed ++ " unique items to fill a "
    ++ toString rows ++ "x" ++ toString cols ++ " card, but only "
    ++ toString avail ++ " were provided."

/-- `generate_pdf` (source lines 239–268): the up-front pool-size check
(`sys.exit(1)` modelled as `Except.error`, performed before any page
exists), then one page per card number `1 … numCards`.  `sample n` is the
random sample drawn for card number `n`. -/
def generate_pdf (sample : Nat → List String) (items : List String)
    (rows cols numCards : Nat) (useFree : Bool) (freeText : String) :
    Except String (List Page) :=
  let cells := cellsNeeded rows cols useFree
  if items.length < cells then
    Except.error (insufficientMsg cells items.length rows cols)
  else
    Except.ok ((List.range numCards).map (fun i =>
      draw_card (generate_card (sample (i + 1)) rows cols useFree freeText) (i + 1)))

/-! ## List-level helper lemmas -/

theorem getD_eq (l : List String) (i : Nat) (h : i < l.length) : l.getD i "" = l[i] := by
  simp [List.getD_eq_getElem?_getD, List.getElem?_eq_getElem h]

theorem getD_drop (l : List String) (k i : Nat) :
    (l.drop k).getD i "" = l.getD (k + i) "" := by
  simp [List.getD_eq_getElem?_getD, List.getElem?_drop]

theorem getD_take (l : List String) (k i : Nat) (h : i < k) :
    (l.take k).getD i "" = l.getD i "" := by
  simp [List.getD_eq_getElem?_getD, List.getElem?_take_of_lt h]

theorem getD_append_left {l₁ l₂ : List String} {i : Nat} (h : i < l₁.length) :
    (l₁ ++ l₂).getD i "" = l₁.getD i "" := by
  simp [List.getD_eq_getElem?_getD, List.getElem?_append_left h]

theorem getD_append_right {l₁ l₂ : List String} {i : Nat} (h : l₁.length ≤ i) :
    (l₁ ++ l₂).getD i "" = l₂.getD (i - l₁.length) "" := by
  simp [List.getD_eq_getElem?_getD, List.getElem?_append_right h]

theorem slice_length (chosen : List String) (n i : Nat) : (slice chosen i n).length = n := by
  induction n generalizing i with
  | zero => rfl
  | succ n ih => simp [slice, ih]

theorem slice_append (chosen : List String) (m n i : Nat) :
    slice chosen i (m + n) = slice chosen i m ++ slice chosen (i + m) n := by
  induction m generalizing i with
  | zero => simp [slice]
  | succ m ih =>
    have h1 : m + 1 + n = (m + n) + 1 := by omega
    rw [h1]
    show chosen.getD i "" :: slice chosen (i + 1) (m + n) = _
    rw [ih (i + 1)]
    have h2 : i + 1 + m = i + (m + 1) := by omega
    rw [h2]
    rfl

theorem slice_eq_drop_take (chosen : List String) (n i : Nat) (h : i + n ≤ chosen.length) :
    slice chosen i n = (chosen.drop i).take n := by
  induction n generalizing i with
  | zero => simp [slice]
  | succ n ih =>
    have hi : i < chosen.length := by omega
    rw [List.drop_eq_getElem_cons hi]
    show chosen.getD i "" :: slice chosen (i + 1) n = _
    rw [List.take_succ_cons, getD_eq chosen i hi, ih (i + 1) (by omega)]

theorem getD_insert_center (l : List String) (ft : String) (k j : Nat) (hk : k ≤ l.length) :
    (l.take k ++ ft :: l.drop k).getD j "" =
      if j < k then l.getD j "" else if j = k then ft else l.getD (j - 1) "" := by
  have hlen : (l.take k).length = k := by simp [List.length_take]; omega
  rcases lt_trichotomy j k with h | h | h
  · rw [if_pos h, getD_append_left (by omega), getD_take _ _ _ h]
  · subst h
    rw [if_neg (lt_irrefl _), if_pos rfl, getD_append_right (by omega), hlen]
    simp
  · rw [if_neg (by omega), if_neg (by omega), getD_append_right (by omega), hlen]
    have h2 : j - k = (j - k - 1) + 1 := by omega
    rw [h2, List.getD_cons_succ, getD_drop]
    congr 1
    omega

/-! ## Closed forms for the `generate_card` loops -/

theorem buildCells_append (chosen : List String) (ft : String) (fr : Nat → Bool)
    (cs₁ cs₂ : List Nat) (idx : Nat) :
    buildCells chosen ft fr (cs₁ ++ cs₂) idx =
      ((buildCells chosen ft fr cs₁ idx).1
          ++ (buildCells chosen ft fr cs₂ (buildCells chosen ft fr cs₁ idx).2).1,
        (buildCells chosen ft fr cs₂ (buildCells chosen ft fr cs₁ idx).2).2) := by
  induction cs₁ generalizing idx with
  | nil => simp [buildCells]
  | cons c cs ih =>
    cases h : fr c with
    | true => simp [buildCells, h, ih]
    | false => simp [buildCells, h, ih]

theorem buildCells_nofree (chosen : List String) (ft : String) (fr : Nat → Bool)
    (cs : List Nat) (idx : Nat) (h : ∀ c ∈ cs, fr c = false) :
    buildCells chosen ft fr cs idx = (slice chosen idx cs.length, idx + cs.length) := by
  induction cs generalizing idx with
  | nil => simp [buildCells, slice]
  | cons c cs ih =>
    have hc : fr c = false := h c (by simp)
    have ih2 := ih (idx + 1) (fun x hx => h x (by simp [hx]))
    simp [buildCells, hc, ih2, slice]
    omega

theorem buildCells_center (chosen : List String) (ft : String) (fr : Nat → Bool)
    (p idx : Nat) (hf : ∀ c, fr c = (c == p)) :
    buildCells chosen ft fr (List.range (2 * p + 1)) idx =
      (slice chosen idx p ++ ft :: slice chosen (idx + p) p, idx + 2 * p) := by
  have hsplit : List.range (2 * p + 1) = List.range' 0 p ++ p :: List.range' (p + 1) p := by
    rw [List.range_eq_range']
    have h1 : 2 * p + 1 = (p + 1) + p := by omega
    rw [h1, ← List.range'_append_1 0 p (p + 1)]
    simp [List.range'_succ]
  have hside : ∀ c ∈ List.range' 0 p, fr c = false := by
    intro c hc
    have : c < p := by simpa using (List.mem_range'_1.mp hc).2
    rw [hf]
    exact beq_eq_false_iff_ne.mpr (by omega)
  have hside2 : ∀ c ∈ List.range' (p + 1) p, fr c = false := by
    intro c hc
    have : p + 1 ≤ c := (List.mem_range'_1.mp hc).1
    rw [hf]
    exact beq_eq_false_iff_ne.mpr (by omega)
  have hp : fr p = true := by rw [hf]; simp
  rw [hsplit, buildCells_append, buildCells_nofree _ _ _ _ _ hside]
  simp only [List.length_range']
  show (slice chosen idx p ++ (buildCells chosen ft fr (p :: List.range' (p + 1) p) (idx + p)).1, _) = _
  rw [show buildCells chosen ft fr (p :: List.range' (p + 1) p) (idx + p)
      = (ft :: (buildCells chosen ft fr (List.range' (p + 1) p) (idx + p)).1,
          (buildCells chosen ft fr (List.range' (p + 1) p) (idx + p)).2) by simp [buildCells, hp]]
  rw [buildCells_nofree _ _ _ _ _ hside2]
  simp only [List.length_range']
  rw [Prod.mk.injEq]
  exact ⟨rfl, by omega⟩

theorem buildRows_append (chosen : List String) (ft : String) (f : Nat → Nat → Bool)
    (cols : Nat) (rs₁ rs₂ : List Nat) (idx : Nat) :
    buildRows chosen ft f cols (rs₁ ++ rs₂) idx =
      ((buildRows chosen ft f cols rs₁ idx).1
          ++ (buildRows chosen ft f cols rs₂ (buildRows chosen ft f cols rs₁ idx).2).1,
        (buildRows chosen ft f cols rs₂ (buildRows chosen ft f cols rs₁ idx).2).2) := by
  induction rs₁ generalizing idx with
  | nil => simp [buildRows]
  | cons r rs ih => simp [buildRows, ih]

theorem buildRows_nofree (chosen : List String) (ft : String) (f : Nat → Nat → Bool)
    (cols : Nat) (rs : List Nat) (idx : Nat) (h : ∀ r ∈ rs, ∀ c, f r c = false) :
    buildRows chosen ft f cols rs idx =
      ((List.range rs.length).map (fun j => slice chosen (idx + j * cols) cols),
        idx + rs.length * cols) := by
  induction rs generalizing idx with
  | nil => simp [buildRows]
  | cons r rs ih =>
    have hrow := buildCells_nofree chosen ft (f r) (List.range cols) idx
      (fun c _ => h r (by simp) c)
    have ih2 := ih (idx + cols) (fun x hx c => h x (by simp [hx]) c)
    simp only [buildRows, hrow, List.length_range, ih2, List.length_cons]
    rw [Prod.mk.injEq]
    constructor
    · rw [List.range_succ_eq_map]
      simp only [List.map_cons, List.map_map, Function.comp]
      congr 1
      · simp
      · apply List.map_congr_left
        intro j _
        congr 1
        rw [Nat.succ_eq_add_one]
        ring
    · ring

theorem generate_card_eq_nofree (chosen : List String) (rows cols : Nat) (useFree : Bool)
    (ft : String) (h : freeApplies rows cols useFree = false) :
    generate_card chosen rows cols useFree ft =
      (List.range rows).map (fun j => slice chosen (j * cols) cols) := by
  unfold generate_card
  rw [buildRows_nofree _ _ _ _ _ _ (fun r _ c => by simp [isFreeCell, h])]
  simp

theorem generate_card_eq_free (chosen : List String) (rows cols : Nat) (useFree : Bool)
    (ft : String) (h : freeApplies rows cols useFree = true) :
    generate_card chosen rows cols useFree ft =
      (List.range (rows / 2)).map (fun j => slice chosen (j * cols) cols)
        ++ (slice chosen (rows / 2 * cols) (cols / 2)
              ++ ft :: slice chosen (rows / 2 * cols + cols / 2) (cols / 2))
          :: (List.range (rows / 2)).map
              (fun j => slice chosen (rows / 2 * cols + 2 * (cols / 2) + j * cols) cols) := by
  have hodd : rows % 2 = 1 ∧ cols % 2 = 1 := by
    simp [freeApplies] at h
    exact ⟨h.1.2, h.2⟩
  have hrows : rows = 2 * (rows / 2) + 1 := by omega
  have hcols : cols = 2 * (cols / 2) + 1 := by omega
  have hsplit : List.range rows
      = List.range' 0 (rows / 2) ++ (rows / 2) :: List.range' (rows / 2 + 1) (rows / 2) := by
    have h1 : rows = (rows / 2 + 1) + rows / 2 := by omega
    conv_lhs => rw [h1]
    rw [List.range_eq_range', ← List.range'_append_1 0 (rows / 2) (rows / 2 + 1),
      List.range'_succ]
    simp
  have hside : ∀ r ∈ List.range' 0 (rows / 2), ∀ c, isFreeCell rows cols useFree r c = false := by
    intro r hr c
    have : r < rows / 2 := by simpa using (List.mem_range'_1.mp hr).2
    have hne : (r == rows / 2) = false := beq_eq_false_iff_ne.mpr (by omega)
    simp [isFreeCell, hne]
  have hside2 : ∀ r ∈ List.range' (rows / 2 + 1) (rows / 2), ∀ c,
      isFreeCell rows cols useFree r c = false := by
    intro r hr c
    have : rows / 2 + 1 ≤ r := (List.mem_range'_1.mp hr).1
    have hne : (r == rows / 2) = false := beq_eq_false_iff_ne.mpr (by omega)
    simp [isFreeCell, hne]
  have hcenter : ∀ c, isFreeCell rows cols useFree (rows / 2) c = (c == cols / 2) := by
    intro c
    simp [isFreeCell, h]
  have hrange : List.range cols = List.range (2 * (cols / 2) + 1) := by
    conv_lhs => rw [hcols]
  have hmid0 : buildCells chosen ft (isFreeCell rows cols useFree (rows / 2))
      (List.range cols) (rows / 2 * cols) =
        (slice chosen (rows / 2 * cols) (cols / 2)
            ++ ft :: slice chosen (rows / 2 * cols + cols / 2) (cols / 2),
          rows / 2 * cols + 2 * (cols / 2)) := by
    rw [hrange]
    exact buildCells_center chosen ft _ (cols / 2) (rows / 2 * cols) hcenter
  have h1 : buildRows chosen ft (isFreeCell rows cols useFree) cols (List.range' 0 (rows / 2)) 0
      = ((List.range (rows / 2)).map (fun j => slice chosen (j * cols) cols),
          rows / 2 * cols) := by
    rw [buildRows_nofree _ _ _ _ _ _ hside]
    simp
  have h2 : buildRows chosen ft (isFreeCell rows cols useFree) cols
      (List.range' (rows / 2 + 1) (rows / 2)) (rows / 2 * cols + 2 * (cols / 2))
      = ((List.range (rows / 2)).map
            (fun j => slice chosen (rows / 2 * cols + 2 * (cols / 2) + j * cols) cols),
          rows / 2 * cols + 2 * (cols / 2) + rows / 2 * cols) := by
    rw [buildRows_nofree _ _ _ _ _ _ hside2]
    simp
  unfold generate_card
  rw [hsplit, buildRows_append, h1]
  simp only [buildRows, hmid0, h2]

/-! ## Shape and flattening of a generated card -/

theorem freeApplies_odd {rows cols : Nat} {useFree : Bool}
    (h : freeApplies rows cols useFree = true) : rows % 2 = 1 ∧ cols % 2 = 1 := by
  simp [freeApplies] at h
  exact ⟨h.1.2, h.2⟩

theorem generate_card_length (chosen : List String) (rows cols : Nat) (useFree : Bool)
    (ft : String) : (generate_card chosen rows cols useFree ft).length = rows := by
  cases h : freeApplies rows cols useFree with
  | false => rw [generate_card_eq_nofree _ _ _ _ _ h]; simp
  | true =>
    obtain ⟨h1, _⟩ := freeApplies_odd h
    rw [generate_card_eq_free _ _ _ _ _ h]
    simp
    omega

theorem generate_card_row_lengths (chosen : List String) (rows cols : Nat) (useFree : Bool)
    (ft : String) :
    ∀ row ∈ generate_card chosen rows cols useFree ft, row.length = cols := by
  cases h : freeApplies rows cols useFree with
  | false =>
    rw [generate_card_eq_nofree _ _ _ _ _ h]
    intro row hrow
    simp only [List.mem_map, List.mem_range] at hrow
    obtain ⟨j, _, rfl⟩ := hrow
    exact slice_length _ _ _
  | true =>
    obtain ⟨_, h2⟩ := freeApplies_odd h
    rw [generate_card_eq_free _ _ _ _ _ h]
    intro row hrow
    simp only [List.mem_append, List.mem_cons, List.mem_map, List.mem_range] at hrow
    rcases hrow with ⟨j, _, rfl⟩ | hmid | ⟨j, _, rfl⟩
    · exact slice_length _ _ _
    · rw [hmid]
      simp [slice_length]
      omega
    · exact slice_length _ _ _

theorem flatten_slices (chosen : List String) (cols : Nat) (n i : Nat) :
    ((List.range n).map (fun j => slice chosen (i + j * cols) cols)).flatten
      = slice chosen i (n * cols) := by
  induction n with
  | zero => simp [slice]
  | succ n ih =>
    rw [List.range_succ]
    simp only [List.map_append, List.flatten_append, ih, List.map_cons, List.map_nil,
      List.flatten_cons, List.flatten_nil, List.append_nil]
    rw [← slice_append]
    congr 1
    ring

theorem generate_card_flatten_nofree (chosen : List String) (rows cols : Nat) (useFree : Bool)
    (ft : String) (h : freeApplies rows cols useFree = false)
    (hlen : chosen.length = cellsNeeded rows cols useFree) :
    (generate_card chosen rows cols useFree ft).flatten = chosen := by
  rw [generate_card_eq_nofree _ _ _ _ _ h]
  have he : (fun j => slice chosen (j * cols) cols)
      = (fun j => slice chosen (0 + j * cols) cols) := by
    funext j
    simp
  rw [he, flatten_slices]
  rw [cellsNeeded, if_neg (by simp [h])] at hlen
  rw [slice_eq_drop_take _ _ _ (by omega)]
  simp [← hlen]

theorem generate_card_flatten_free (chosen : List String) (rows cols : Nat) (useFree : Bool)
    (ft : String) (h : freeApplies rows cols useFree = true)
    (hlen : chosen.length = cellsNeeded rows cols useFree) :
    (generate_card chosen rows cols useFree ft).flatten =
      chosen.take (rows / 2 * cols + cols / 2)
        ++ ft :: chosen.drop (rows / 2 * cols + cols / 2) := by
  obtain ⟨hodd1, hodd2⟩ := freeApplies_odd h
  rw [cellsNeeded, if_pos h] at hlen
  have hrc : rows * cols = 2 * (rows / 2 * cols) + 2 * (cols / 2) + 1 := by
    have e1 : rows * cols = 2 * (rows / 2 * cols) + cols := by
      conv_lhs => rw [show rows = 2 * (rows / 2) + 1 by omega]
      ring
    omega
  have hL : chosen.length = 2 * (rows / 2 * cols) + 2 * (cols / 2) := by omega
  have s1 : slice chosen 0 (rows / 2 * cols + cols / 2)
      = chosen.take (rows / 2 * cols + cols / 2) := by
    rw [slice_eq_drop_take _ _ _ (by omega)]
    simp
  have s2 : slice chosen (rows / 2 * cols + cols / 2) (cols / 2 + rows / 2 * cols)
      = chosen.drop (rows / 2 * cols + cols / 2) := by
    rw [slice_eq_drop_take _ _ _ (by omega)]
    have hd : (chosen.drop (rows / 2 * cols + cols / 2)).length
        = cols / 2 + rows / 2 * cols := by
      simp [List.length_drop]
      omega
    rw [← hd, List.take_length]
  have a1 : slice chosen 0 (rows / 2 * cols) ++ slice chosen (rows / 2 * cols) (cols / 2)
      = chosen.take (rows / 2 * cols + cols / 2) := by
    rw [← s1, slice_append]
    simp
  have a2 : slice chosen (rows / 2 * cols + cols / 2) (cols / 2)
        ++ slice chosen (rows / 2 * cols + 2 * (cols / 2)) (rows / 2 * cols)
      = chosen.drop (rows / 2 * cols + cols / 2) := by
    rw [← s2, slice_append]
    congr 2
    omega
  rw [generate_card_eq_free _ _ _ _ _ h]
  have he : (fun j => slice chosen (j * cols) cols)
      = (fun j => slice chosen (0 + j * cols) cols) := by
    funext j
    simp
  simp only [List.flatten_append, List.flatten_cons, he, flatten_slices]
  simp only [List.append_assoc, List.cons_append, Nat.zero_add]
  rw [a2, ← List.append_assoc, a1]

/-! ## Cell values of a generated card -/

theorem flatIdx_lt {rows cols r c : Nat} (hr : r < rows) (hc : c < cols) :
    r * cols + c < rows * cols := by
  have h1 : (r + 1) * cols ≤ rows * cols := Nat.mul_le_mul_right cols (by omega)
  have h2 : (r + 1) * cols = r * cols + cols := by ring
  omega

theorem flatIdx_inj {cols r₁ c₁ r₂ c₂ : Nat} (h₁ : c₁ < cols) (h₂ : c₂ < cols)
    (h : r₁ * cols + c₁ = r₂ * cols + c₂) : r₁ = r₂ ∧ c₁ = c₂ := by
  rcases Nat.lt_trichotomy r₁ r₂ with hlt | heq | hgt
  · exfalso
    have e1 : (r₁ + 1) * cols ≤ r₂ * cols := Nat.mul_le_mul_right cols (by omega)
    have e2 : (r₁ + 1) * cols = r₁ * cols + cols := by ring
    omega
  · subst heq
    omega
  · exfalso
    have e1 : (r₂ + 1) * cols ≤ r₁ * cols := Nat.mul_le_mul_right cols (by omega)
    have e2 : (r₂ + 1) * cols = r₂ * cols + cols := by ring
    omega

theorem cellAt_flatten (card : List (List String)) (cols r c : Nat)
    (hu : ∀ row ∈ card, row.length = cols) (hr : r < card.length) (hc : c < cols) :
    cellAt card r c = card.flatten.getD (r * cols + c) "" := by
  induction card generalizing r with
  | nil => simp at hr
  | cons row rest ih =>
    have hlen : row.length = cols := hu row (by simp)
    cases r with
    | zero =>
      show row.getD c "" = _
      rw [List.flatten_cons, getD_append_left (by omega)]
      simp
    | succ r =>
      show cellAt rest r c = _
      rw [List.flatten_cons, getD_append_right (by
        have h1 : cols ≤ (r + 1) * cols := Nat.le_mul_of_pos_left cols (by omega)
        omega)]
      rw [hlen]
      have harith : (r + 1) * cols + c - cols = r * cols + c := by
        have e : (r + 1) * cols = r * cols + cols := by ring
        omega
      rw [harith]
      exact ih r (fun x hx => hu x (by simp [hx])) (by simpa using hr)

theorem centerIdx_le {rows cols : Nat} (hodd1 : rows % 2 = 1) (hodd2 : cols % 2 = 1) :
    rows / 2 * cols + cols / 2 + 1 ≤ rows * cols := by
  have e1 : rows * cols = 2 * (rows / 2 * cols) + cols := by
    conv_lhs => rw [show rows = 2 * (rows / 2) + 1 by omega]
    ring
  omega

theorem generate_card_cellAt (chosen : List String) (rows cols : Nat) (useFree : Bool)
    (ft : String) (hlen : chosen.length = cellsNeeded rows cols useFree)
    (r c : Nat) (hr : r < rows) (hc : c < cols) :
    cellAt (generate_card chosen rows cols useFree ft) r c =
      if isFreeCell rows cols useFree r c then ft
      else chosen.getD (adjIdx rows cols useFree r c) "" := by
  have hflatD := cellAt_flatten (generate_card chosen rows cols useFree ft) cols r c
    (generate_card_row_lengths chosen rows cols useFree ft)
    (by rw [generate_card_length]; exact hr) hc
  cases hfa : freeApplies rows cols useFree with
  | false =>
    rw [hflatD, generate_card_flatten_nofree _ _ _ _ _ hfa hlen]
    simp [isFreeCell, hfa, adjIdx]
  | true =>
    obtain ⟨hodd1, hodd2⟩ := freeApplies_odd hfa
    rw [cellsNeeded, if_pos hfa] at hlen
    have hk := centerIdx_le hodd1 hodd2
    rw [hflatD, generate_card_flatten_free _ _ _ _ _ hfa (by rw [cellsNeeded, if_pos hfa]; omega)]
    rw [getD_insert_center _ _ _ _ (by omega)]
    by_cases hctr : r = rows / 2 ∧ c = cols / 2
    · obtain ⟨rfl, rfl⟩ := hctr
      have hfree : isFreeCell rows cols useFree (rows / 2) (cols / 2) = true := by
        simp [isFreeCell, hfa]
      rw [if_pos hfree, if_neg (lt_irrefl _), if_pos rfl]
    · have hne : r * cols + c ≠ rows / 2 * cols + cols / 2 := by
        intro he
        exact hctr ⟨(flatIdx_inj hc (by omega) he).1, (flatIdx_inj hc (by omega) he).2⟩
      have hfree : isFreeCell rows cols useFree r c = false := by
        simp only [isFreeCell, hfa, Bool.true_and]
        rcases Classical.em (r = rows / 2) with hre | hre
        · have : c ≠ cols / 2 := fun hce => hctr ⟨hre, hce⟩
          simp [beq_eq_false_iff_ne.mpr this]
        · simp [beq_eq_false_iff_ne.mpr hre]
      conv_rhs => rw [if_neg (show ¬isFreeCell rows cols useFree r c = true by simp [hfree])]
      simp only [adjIdx, hfa, Bool.true_and, decide_eq_true_eq]
      rcases Nat.lt_trichotomy (r * cols + c) (rows / 2 * cols + cols / 2) with hlt | heq | hgt
      · rw [if_pos hlt, if_neg (by omega)]
      · exact absurd heq hne
      · rw [if_neg (by omega), if_neg hne, if_pos (by omega)]

theorem isFreeCell_false_ne {rows cols : Nat} {useFree : Bool} {r c : Nat}
    (hfa : freeApplies rows cols useFree = true)
    (hfree : isFreeCell rows cols useFree r c = false) :
    ¬(r = rows / 2 ∧ c = cols / 2) := by
  rintro ⟨rfl, rfl⟩
  simp [isFreeCell, hfa] at hfree

theorem adjIdx_lt (rows cols : Nat) (useFree : Bool) (r c : Nat)
    (hr : r < rows) (hc : c < cols)
    (hfree : isFreeCell rows cols useFree r c = false) :
    adjIdx rows cols useFree r c < cellsNeeded rows cols useFree := by
  have hj := flatIdx_lt hr hc
  cases hfa : freeApplies rows cols useFree with
  | false => simpa [adjIdx, hfa, cellsNeeded] using hj
  | true =>
    obtain ⟨hodd1, hodd2⟩ := freeApplies_odd hfa
    have hk := centerIdx_le hodd1 hodd2
    have hne : r * cols + c ≠ rows / 2 * cols + cols / 2 := by
      intro he
      exact isFreeCell_false_ne hfa hfree
        ⟨(flatIdx_inj hc (by omega) he).1, (flatIdx_inj hc (by omega) he).2⟩
    rw [cellsNeeded, if_pos hfa]
    simp only [adjIdx, hfa, Bool.true_and, decide_eq_true_eq]
    by_cases hlt : rows / 2 * cols + cols / 2 < r * cols + c
    · rw [if_pos hlt]
      omega
    · rw [if_neg hlt]
      omega

theorem adjIdx_inj (rows cols : Nat) (useFree : Bool) (r₁ c₁ r₂ c₂ : Nat)
    (h1 : r₁ < rows) (h2 : c₁ < cols) (h3 : r₂ < rows) (h4 : c₂ < cols)
    (hf1 : isFreeCell rows cols useFree r₁ c₁ = false)
    (hf2 : isFreeCell rows cols useFree r₂ c₂ = false)
    (he : adjIdx rows cols useFree r₁ c₁ = adjIdx rows cols useFree r₂ c₂) :
    r₁ = r₂ ∧ c₁ = c₂ := by
  cases hfa : freeApplies rows cols useFree with
  | false =>
    simp only [adjIdx, hfa, Bool.false_and, Bool.false_eq_true, if_false] at he
    exact flatIdx_inj h2 h4 he
  | true =>
    obtain ⟨hodd1, hodd2⟩ := freeApplies_odd hfa
    have hk := centerIdx_le hodd1 hodd2
    have hne1 : r₁ * cols + c₁ ≠ rows / 2 * cols + cols / 2 := by
      intro hx
      exact isFreeCell_false_ne hfa hf1
        ⟨(flatIdx_inj h2 (by omega) hx).1, (flatIdx_inj h2 (by omega) hx).2⟩
    have hne2 : r₂ * cols + c₂ ≠ rows / 2 * cols + cols / 2 := by
      intro hx
      exact isFreeCell_false_ne hfa hf2
        ⟨(flatIdx_inj h4 (by omega) hx).1, (flatIdx_inj h4 (by omega) hx).2⟩
    simp only [adjIdx, hfa, Bool.true_and, decide_eq_true_eq] at he
    have hj : r₁ * cols + c₁ = r₂ * cols + c₂ := by
      by_cases ha : rows / 2 * cols + cols / 2 < r₁ * cols + c₁ <;>
        by_cases hb : rows / 2 * cols + cols / 2 < r₂ * cols + c₂ <;>
          simp only [ha, hb, if_true, if_false] at he <;> omega
    exact flatIdx_inj h2 h4 hj

/-! ## Claim theorems: card sampling -/

/-- C1: for `rows, cols ≥ 1` and a valid sample of `cells_needed` items
from the pool, `generate_card` returns a grid of exactly `rows × cols`
string cells; the drawn items appear in row-major order (the flattened
card is exactly the sample, with the free label inserted at the center
position when the free space applies, so the center cell is skipped); and
every non-free cell holds an item drawn from the pool. -/
theorem generate_card_spec (pool chosen : List String) (rows cols : Nat) (useFree : Bool)
    (freeText : String) (hr : 1 ≤ rows) (hc : 1 ≤ cols)
    (hs : IsSample chosen pool (cellsNeeded rows cols useFree)) :
    (generate_card chosen rows cols useFree freeText).length = rows ∧
    (∀ row ∈ generate_card chosen rows cols useFree freeText, row.length = cols) ∧
    (freeApplies rows cols useFree = true →
      (generate_card chosen rows cols useFree freeText).flatten =
        chosen.take (rows / 2 * cols + cols / 2)
          ++ freeText :: chosen.drop (rows / 2 * cols + cols / 2)) ∧
    (freeApplies rows cols useFree = false →
      (generate_card chosen rows cols useFree freeText).flatten = chosen) ∧
    (∀ r c, r < rows → c < cols → isFreeCell rows cols useFree r c = false →
      cellAt (generate_card chosen rows cols useFree freeText) r c ∈ pool) := by
  obtain ⟨hlen, hsub⟩ := hs
  refine ⟨generate_card_length _ _ _ _ _, generate_card_row_lengths _ _ _ _ _,
    fun h => generate_card_flatten_free _ _ _ _ _ h hlen,
    fun h => generate_card_flatten_nofree _ _ _ _ _ h hlen, ?_⟩
  intro r c hrr hcc hfree
  rw [generate_card_cellAt _ _ _ _ _ hlen r c hrr hcc, if_neg (by simp [hfree])]
  have hbound : adjIdx rows cols useFree r c < chosen.length := by
    rw [hlen]
    exact adjIdx_lt _ _ _ _ _ hrr hcc hfree
  rw [getD_eq _ _ hbound]
  exact hsub.subset (List.getElem_mem _)

/-- Witness for C1 at `rows = cols = 1`, no free space, pool `["x"]`. -/
theorem generate_card_spec_witness :
    ((1 : Nat) ≤ 1 ∧ IsSample ["x"] ["x"] (cellsNeeded 1 1 false)) ∧
    ((generate_card ["x"] 1 1 false "FREE").length = 1 ∧
      (∀ row ∈ generate_card ["x"] 1 1 false "FREE", row.length = 1) ∧
      (freeApplies 1 1 false = true →
        (generate_card ["x"] 1 1 false "FREE").flatten =
          (["x"] : List String).take (1 / 2 * 1 + 1 / 2)
            ++ "FREE" :: (["x"] : List String).drop (1 / 2 * 1 + 1 / 2)) ∧
      (freeApplies 1 1 false = false →
        (generate_card ["x"] 1 1 false "FREE").flatten = ["x"]) ∧
      (∀ r c, r < 1 → c < 1 → isFreeCell 1 1 false r c = false →
        cellAt (generate_card ["x"] 1 1 false "FREE") r c ∈ ["x"])) :=
  ⟨⟨le_refl 1, ⟨rfl, List.Subperm.refl _⟩⟩,
    generate_card_spec ["x"] ["x"] 1 1 false "FREE" (le_refl 1) (le_refl 1)
      ⟨rfl, List.Subperm.refl _⟩⟩

/-- C2 counterexample: the claim quantifies over every pool, deduplication
not required; with the duplicated pool `["a", "a"]` on a 1×2 card the
sample `["a", "a"]` is a legitimate `random.sample` outcome (two distinct
positions) and the two non-free cells hold the same string. -/
theorem generate_card_dup_cex :
    IsSample ["a", "a"] ["a", "a"] (cellsNeeded 1 2 false) ∧
    isFreeCell 1 2 false 0 0 = false ∧
    isFreeCell 1 2 false 0 1 = false ∧
    ((0, 0) : Nat × Nat) ≠ (0, 1) ∧
    cellAt (generate_card ["a", "a"] 1 2 false "FREE") 0 0
      = cellAt (generate_card ["a", "a"] 1 2 false "FREE") 0 1 :=
  ⟨⟨rfl, List.Subperm.refl _⟩, rfl, rfl, by decide, by decide⟩

/-- C2 amended: when the pool itself has no duplicate items, no two
distinct non-free cells of a generated card hold the same item. -/
theorem generate_card_nodup_distinct (pool chosen : List String) (rows cols : Nat)
    (useFree : Bool) (freeText : String) (hnd : pool.Nodup)
    (hs : IsSample chosen pool (cellsNeeded rows cols useFree)) :
    ∀ r₁ c₁ r₂ c₂, r₁ < rows → c₁ < cols → r₂ < rows → c₂ < cols →
      isFreeCell rows cols useFree r₁ c₁ = false →
      isFreeCell rows cols useFree r₂ c₂ = false →
      (r₁, c₁) ≠ (r₂, c₂) →
      cellAt (generate_card chosen rows cols useFree freeText) r₁ c₁
        ≠ cellAt (generate_card chosen rows cols useFree freeText) r₂ c₂ := by
  obtain ⟨hlen, hsub⟩ := hs
  have hchosen : chosen.Nodup := by
    obtain ⟨l, hperm, hsl⟩ := hsub
    exact (hsl.nodup hnd).perm hperm
  intro r₁ c₁ r₂ c₂ h1 h2 h3 h4 hf1 hf2 hne
  rw [generate_card_cellAt _ _ _ _ _ hlen _ _ h1 h2, if_neg (by simp [hf1]),
    generate_card_cellAt _ _ _ _ _ hlen _ _ h3 h4, if_neg (by simp [hf2])]
  have hb1 : adjIdx rows cols useFree r₁ c₁ < chosen.length := by
    rw [hlen]
    exact adjIdx_lt _ _ _ _ _ h1 h2 hf1
  have hb2 : adjIdx rows cols useFree r₂ c₂ < chosen.length := by
    rw [hlen]
    exact adjIdx_lt _ _ _ _ _ h3 h4 hf2
  rw [getD_eq _ _ hb1, getD_eq _ _ hb2]
  intro heq
  have hidx := (hchosen.getElem_inj_iff).mp heq
  obtain ⟨hre, hce⟩ := adjIdx_inj rows cols useFree r₁ c₁ r₂ c₂ h1 h2 h3 h4 hf1 hf2 hidx
  exact hne (by rw [hre, hce])

/-- Witness for the amended C2 on a 1×2 card over the duplicate-free pool
`["a", "b"]`. -/
theorem generate_card_nodup_distinct_witness :
    (["a", "b"] : List String).Nodup ∧
    IsSample ["a", "b"] ["a", "b"] (cellsNeeded 1 2 false) ∧
    (0 < 1 ∧ 0 < 2 ∧ 0 < 1 ∧ 1 < 2) ∧
    (isFreeCell 1 2 false 0 0 = false ∧ isFreeCell 1 2 false 0 1 = false) ∧
    ((0, 0) : Nat × Nat) ≠ (0, 1) ∧
    cellAt (generate_card ["a", "b"] 1 2 false "FREE") 0 0
      ≠ cellAt (generate_card ["a", "b"] 1 2 false "FREE") 0 1 :=
  ⟨by decide, ⟨rfl, List.Subperm.refl _⟩, by decide, ⟨rfl, rfl⟩, by decide,
    generate_card_nodup_distinct ["a", "b"] ["a", "b"] 1 2 false "FREE" (by decide)
      ⟨rfl, List.Subperm.refl _⟩ 0 0 0 1 (by decide) (by decide) (by decide)
      (by decide) rfl rfl (by decide)⟩

/-- C3: the free label is placed, at the unique center cell, exactly when
`use_free_space` holds and both dimensions are odd; in every other case —
including free space requested on an even-dimension grid, which the code
silently ignores rather than rejecting — every cell of the card is drawn
from the pool. -/
theorem free_space_iff (pool chosen : List String) (rows cols : Nat) (useFree : Bool)
    (freeText : String) (hr : 1 ≤ rows) (hc : 1 ≤ cols)
    (hs : IsSample chosen pool (cellsNeeded rows cols useFree)) :
    (∀ r c, isFreeCell rows cols useFree r c = true ↔
      (freeApplies rows cols useFree = true ∧ r = rows / 2 ∧ c = cols / 2)) ∧
    (freeApplies rows cols useFree = true →
      cellAt (generate_card chosen rows cols useFree freeText) (rows / 2) (cols / 2)
        = freeText) ∧
    (freeApplies rows cols useFree = false →
      ∀ r c, r < rows → c < cols →
        cellAt (generate_card chosen rows cols useFree freeText) r c ∈ pool) := by
  obtain ⟨hlen, hsub⟩ := hs
  refine ⟨?_, ?_, ?_⟩
  · intro r c
    simp [isFreeCell, and_assoc]
  · intro h
    rw [generate_card_cellAt _ _ _ _ _ hlen _ _ (by omega) (by omega),
      if_pos (by simp [isFreeCell, h])]
  · intro h r c hrr hcc
    have hfree : isFreeCell rows cols useFree r c = false := by simp [isFreeCell, h]
    rw [generate_card_cellAt _ _ _ _ _ hlen r c hrr hcc, if_neg (by simp [hfree])]
    have hbound : adjIdx rows cols useFree r c < chosen.length := by
      rw [hlen]
      exact adjIdx_lt _ _ _ _ _ hrr hcc hfree
    rw [getD_eq _ _ hbound]
    exact hsub.subset (List.getElem_mem _)

/-- Witness for C3 on a 3×3 card with free space over a 9-item pool. -/
theorem free_space_iff_witness :
    ((1 : Nat) ≤ 3 ∧
      IsSample ["a", "b", "c", "d", "e", "f", "g", "h"]
        ["a", "b", "c", "d", "e", "f", "g", "h", "i"] (cellsNeeded 3 3 true)) ∧
    ((∀ r c, isFreeCell 3 3 true r c = true ↔
        (freeApplies 3 3 true = true ∧ r = 3 / 2 ∧ c = 3 / 2)) ∧
      (freeApplies 3 3 true = true →
        cellAt (generate_card ["a", "b", "c", "d", "e", "f", "g", "h"] 3 3 true "FREE")
          (3 / 2) (3 / 2) = "FREE") ∧
      (freeApplies 3 3 true = false →
        ∀ r c, r < 3 → c < 3 →
          cellAt (generate_card ["a", "b", "c", "d", "e", "f", "g", "h"] 3 3 true "FREE")
            r c ∈ ["a", "b", "c", "d", "e", "f", "g", "h", "i"])) :=
  ⟨⟨by decide, ⟨rfl, by
      rw [show (["a", "b", "c", "d", "e", "f", "g", "h"] : List String)
          = (["a", "b", "c", "d", "e", "f", "g", "h", "i"] : List String).take 8 from rfl]
      exact (List.take_sublist _ _).subperm⟩⟩,
    free_space_iff ["a", "b", "c", "d", "e", "f", "g", "h", "i"]
      ["a", "b", "c", "d", "e", "f", "g", "h"] 3 3 true "FREE" (by decide) (by decide)
      ⟨rfl, by
        rw [show (["a", "b", "c", "d", "e", "f", "g", "h"] : List String)
            = (["a", "b", "c", "d", "e", "f", "g", "h", "i"] : List String).take 8 from rfl]
        exact (List.take_sublist _ _).subperm⟩⟩

/-! ## The size-search loop of `_draw_cell_text` -/

theorem find?_max_of_pairwise (p : Nat → Bool) (l : List Nat)
    (hp : l.Pairwise (fun a b => b ≤ a)) (s : Nat) (hs : s ∈ l) (hps : p s = true) :
    ∃ t, l.find? p = some t ∧ p t = true ∧ s ≤ t := by
  induction l with
  | nil => simp at hs
  | cons a l ih =>
    rw [List.pairwise_cons] at hp
    cases hpa : p a with
    | true =>
      refine ⟨a, List.find?_cons_of_pos _ (by rw [hpa]), hpa, ?_⟩
      rcases List.mem_cons.mp hs with rfl | hmem
      · exact le_refl s
      · exact hp.1 s hmem
    | false =>
      have hsl : s ∈ l := by
        rcases List.mem_cons.mp hs with rfl | hmem
        · rw [hps] at hpa
          cases hpa
        · exact hmem
      obtain ⟨t, hfind, hpt, hst⟩ := ih hp.2 hsl
      exact ⟨t, by rw [List.find?_cons_of_neg _ (by rw [hpa]; simp)]; exact hfind, hpt, hst⟩

theorem pickSize_eq_find (measure : String → Nat → ℚ) (text : String) (max_w max_h : ℚ) :
    pickSize measure text max_w max_h =
      match candidateSizes.find? (fitsAt measure text max_w max_h) with
      | some size => (size, wrapGreedy text (wrapWidth max_w size))
      | none => (6, wrapGreedy text (wrapWidth max_w 6)) := rfl

theorem pickSize_snd (measure : String → Nat → ℚ) (text : String) (max_w max_h : ℚ) :
    (pickSize measure text max_w max_h).2
      = wrapGreedy text (wrapWidth max_w (pickSize measure text max_w max_h).1) := by
  rw [pickSize_eq_find]
  cases h : candidateSizes.find? (fitsAt measure text max_w max_h) <;> rfl

theorem pickSize_fst_mem_or_six (measure : String → Nat → ℚ) (text : String)
    (max_w max_h : ℚ) :
    (pickSize measure text max_w max_h).1 = 6 ∨
      ((pickSize measure text max_w max_h).1 ∈ candidateSizes ∧
        fitsAt measure text max_w max_h (pickSize measure text max_w max_h).1 = true) := by
  rw [pickSize_eq_find]
  cases h : candidateSizes.find? (fitsAt measure text max_w max_h) with
  | none => left; rfl
  | some s =>
    right
    exact ⟨List.mem_of_find?_eq_some h, List.find?_some h⟩

theorem pickSize_ge_of_fits (measure : String → Nat → ℚ) (text : String) (max_w max_h : ℚ)
    (s : Nat) (hs : s ∈ candidateSizes) (hfit : fitsAt measure text max_w max_h s = true) :
    s ≤ (pickSize measure text max_w max_h).1 ∧
      fitsAt measure text max_w max_h (pickSize measure text max_w max_h).1 = true := by
  have hpw : candidateSizes.Pairwise (fun a b => b ≤ a) := by decide
  obtain ⟨t, hfind, hpt, hst⟩ :=
    find?_max_of_pairwise (fitsAt measure text max_w max_h) candidateSizes hpw s hs hfit
  rw [pickSize_eq_find, hfind]
  exact ⟨hst, hpt⟩

theorem candidateSizes_bounds (s : Nat) (hs : s ∈ candidateSizes) : 6 ≤ s ∧ s ≤ 11 := by
  rw [show candidateSizes = [11, 10, 9, 8, 7, 6] from rfl] at hs
  fin_cases hs <;> omega

theorem pickSize_bounds (measure : String → Nat → ℚ) (text : String) (max_w max_h : ℚ) :
    6 ≤ (pickSize measure text max_w max_h).1 ∧ (pickSize measure text max_w max_h).1 ≤ 11 := by
  rcases pickSize_fst_mem_or_six measure text max_w max_h with h | ⟨hmem, _⟩
  · rw [h]
    omega
  · exact candidateSizes_bounds _ hmem

theorem pickSize_none (measure : String → Nat → ℚ) (text : String) (max_w max_h : ℚ)
    (h : ∀ s ∈ candidateSizes, fitsAt measure text max_w max_h s = false) :
    pickSize measure text max_w max_h = (6, wrapGreedy text (wrapWidth max_w 6)) := by
  have hfind : candidateSizes.find? (fitsAt measure text max_w max_h) = none :=
    List.find?_eq_none.mpr (fun x hx => by rw [h x hx]; simp)
  rw [pickSize_eq_find, hfind]

theorem wrapWidth_ge (max_w : ℚ) (size : Nat) : 8 ≤ wrapWidth max_w size := by
  unfold wrapWidth
  have h8 : (8 : ℤ) ≤ max (ratTrunc (max_w / ((size : ℚ) * 0.5))) 8 := le_max_right _ _
  omega

/-! ## Concrete evaluations of the text-fit routine -/

theorem chunkWordGo_small (w fuel : Nat) (cs : List Char) (hne : cs ≠ [])
    (hlen : cs.length ≤ w) : chunkWordGo w fuel cs = [cs] := by
  cases cs with
  | nil => exact absurd rfl hne
  | cons a as =>
    cases fuel with
    | zero => rfl
    | succ f =>
      show chunkWordGo w (f + 1) (a :: as) = [a :: as]
      simp only [chunkWordGo]
      rw [if_pos hlen]

theorem wrapGreedy_one_word (text : String) (w : Nat) (cs : List Char)
    (hsplit : splitWords text = [text]) (hcs : text.toList = cs) (hne : cs ≠ [])
    (hlen : cs.length ≤ w) (hmk : String.mk cs = text) : wrapGreedy text w = [text] := by
  unfold wrapGreedy
  rw [hsplit, List.map_cons, List.map_nil]
  have hchunk : chunkWord w text = [text] := by
    unfold chunkWord
    rw [hcs, chunkWordGo_small w text.length cs hne hlen, List.map_cons, List.map_nil, hmk]
  rw [hchunk]
  rfl

theorem fitsAt_one_line (measure : String → Nat → ℚ) (text : String) (max_w max_h : ℚ)
    (s : Nat) (hwrap : wrapGreedy text (wrapWidth max_w s) = [text]) :
    fitsAt measure text max_w max_h s
      = (decide ((1 : ℚ) * ((s : ℚ) * 1.2) ≤ max_h) && decide (measure text s ≤ max_w)) := by
  unfold fitsAt
  rw [hwrap]
  simp only [List.length_cons, List.length_nil, Nat.zero_add, Nat.cast_one,
    List.all_cons, List.all_nil, Bool.and_true]

theorem fitsAt_measureLen_hi (s : Nat) (hs : s ∈ candidateSizes) :
    fitsAt measureLen "hi" 100 100 s = true := by
  obtain ⟨h6, h11⟩ := candidateSizes_bounds s hs
  have hw := wrapWidth_ge 100 s
  rw [fitsAt_one_line measureLen "hi" 100 100 s
    (wrapGreedy_one_word "hi" _ ['h', 'i'] (by decide) rfl (by decide)
      (by simp only [List.length_cons, List.length_nil]; omega) rfl)]
  have hq : (s : ℚ) ≤ 11 := by exact_mod_cast h11
  have hq0 : (0 : ℚ) ≤ (s : ℚ) := Nat.cast_nonneg s
  rw [decide_eq_true (show (1 : ℚ) * ((s : ℚ) * 1.2) ≤ 100 by nlinarith),
    decide_eq_true (show measureLen "hi" s ≤ 100 by
      unfold measureLen
      rw [show ("hi".length : Nat) = 2 from rfl]
      push_cast
      nlinarith)]
  rfl

theorem fitsAt_measureWide_hello (s : Nat) : fitsAt measureWide "hello" 5 50 s = false := by
  have hw := wrapWidth_ge 5 s
  rw [fitsAt_one_line measureWide "hello" 5 50 s
    (wrapGreedy_one_word "hello" _ ['h', 'e', 'l', 'l', 'o'] (by decide) rfl (by decide)
      (by simp only [List.length_cons, List.length_nil]; omega) rfl)]
  rw [decide_eq_false (show ¬(measureWide "hello" s ≤ 5) by unfold measureWide; norm_num)]
  simp

theorem measureHelv_W (s : Nat) : measureHelv "W" s = 0.944 * (s : ℚ) := by
  unfold measureHelv
  rw [show "W".toList = ['W'] from rfl, List.map_cons, List.map_nil, List.sum_cons,
    List.sum_nil, show helvCharWidth 'W' = 0.944 from by
      unfold helvCharWidth
      rw [if_neg (by decide), if_pos rfl]]
  ring

theorem measureHelv_ii (s : Nat) : measureHelv "ii" s = 0.444 * (s : ℚ) := by
  unfold measureHelv
  rw [show "ii".toList = ['i', 'i'] from rfl]
  simp only [List.map_cons, List.map_nil, List.sum_cons, List.sum_nil,
    show helvCharWidth 'i' = 0.222 from by unfold helvCharWidth; rw [if_pos rfl]]
  norm_num

theorem fitsAt_helv_W (s : Nat) :
    fitsAt measureHelv "W" 8 20 s
      = (decide ((1 : ℚ) * ((s : ℚ) * 1.2) ≤ 20) && decide (0.944 * (s : ℚ) ≤ 8)) := by
  have hw := wrapWidth_ge 8 s
  rw [fitsAt_one_line measureHelv "W" 8 20 s
    (wrapGreedy_one_word "W" _ ['W'] (by decide) rfl (by decide)
      (by simp only [List.length_cons, List.length_nil]; omega) rfl), measureHelv_W]

theorem fitsAt_helv_W_eleven : fitsAt measureHelv "W" 8 20 11 = false := by
  rw [fitsAt_helv_W]
  rw [decide_eq_false (show ¬(0.944 * ((11 : Nat) : ℚ) ≤ 8) by push_cast; norm_num)]
  simp

theorem fitsAt_helv_W_ten : fitsAt measureHelv "W" 8 20 10 = false := by
  rw [fitsAt_helv_W]
  rw [decide_eq_false (show ¬(0.944 * ((10 : Nat) : ℚ) ≤ 8) by push_cast; norm_num)]
  simp

theorem fitsAt_helv_W_nine : fitsAt measureHelv "W" 8 20 9 = false := by
  rw [fitsAt_helv_W]
  rw [decide_eq_false (show ¬(0.944 * ((9 : Nat) : ℚ) ≤ 8) by push_cast; norm_num)]
  simp

theorem fitsAt_helv_W_eight : fitsAt measureHelv "W" 8 20 8 = true := by
  rw [fitsAt_helv_W]
  rw [decide_eq_true (show (1 : ℚ) * (((8 : Nat) : ℚ) * 1.2) ≤ 20 by push_cast; norm_num),
    decide_eq_true (show (0.944 : ℚ) * ((8 : Nat) : ℚ) ≤ 8 by push_cast; norm_num)]
  rfl

theorem fitsAt_helv_ii_eleven : fitsAt measureHelv "ii" 8 20 11 = true := by
  have hw := wrapWidth_ge 8 11
  rw [fitsAt_one_line measureHelv "ii" 8 20 11
    (wrapGreedy_one_word "ii" _ ['i', 'i'] (by decide) rfl (by decide)
      (by simp only [List.length_cons, List.length_nil]; omega) rfl), measureHelv_ii]
  rw [decide_eq_true (show (1 : ℚ) * (((11 : Nat) : ℚ) * 1.2) ≤ 20 by push_cast; norm_num),
    decide_eq_true (show (0.444 : ℚ) * ((11 : Nat) : ℚ) ≤ 8 by push_cast; norm_num)]
  rfl

theorem pickSize_helv_W : (pickSize measureHelv "W" 8 20).1 = 8 := by
  rw [pickSize_eq_find, show candidateSizes = [11, 10, 9, 8, 7, 6] from rfl,
    List.find?_cons_of_neg _ (by rw [fitsAt_helv_W_eleven]; simp),
    List.find?_cons_of_neg _ (by rw [fitsAt_helv_W_ten]; simp),
    List.find?_cons_of_neg _ (by rw [fitsAt_helv_W_nine]; simp),
    List.find?_cons_of_pos _ (by rw [fitsAt_helv_W_eight])]

theorem pickSize_helv_ii : (pickSize measureHelv "ii" 8 20).1 = 11 := by
  rw [pickSize_eq_find, show candidateSizes = [11, 10, 9, 8, 7, 6] from rfl,
    List.find?_cons_of_pos _ (by rw [fitsAt_helv_ii_eleven])]

/-! ## Claim theorems: text fitting -/

/-- C5: the size-search loop selects the largest candidate font size at
which the wrapped lines fit both the available height (block height
`lines * size * 1.2 ≤ max_h`) and the available width (every measured line
`≤ max_w`); whenever some candidate `s` fits, the chosen size also fits, is
itself a candidate, and is at least `s` — no smaller candidate is chosen
when a larger one satisfies both constraints. -/
theorem textfit_largest (measure : String → Nat → ℚ) (text : String) (max_w max_h : ℚ)
    (s : Nat) (hs : s ∈ candidateSizes) (hfit : fitsAt measure text max_w max_h s = true) :
    fitsAt measure text max_w max_h (pickSize measure text max_w max_h).1 = true ∧
    (pickSize measure text max_w max_h).1 ∈ candidateSizes ∧
    s ≤ (pickSize measure text max_w max_h).1 := by
  obtain ⟨hle, hfits⟩ := pickSize_ge_of_fits measure text max_w max_h s hs hfit
  refine ⟨hfits, ?_, hle⟩
  rcases pickSize_fst_mem_or_six measure text max_w max_h with h6 | ⟨hmem, _⟩
  · rw [h6]
    decide
  · exact hmem

/-- Witness for C5: with a fixed-pitch measure, the text `"hi"` in a
roomy 100×100 box fits already at the maximum size 11, which is chosen. -/
theorem textfit_largest_witness :
    ((11 : Nat) ∈ candidateSizes ∧ fitsAt measureLen "hi" 100 100 11 = true) ∧
    (fitsAt measureLen "hi" 100 100 (pickSize measureLen "hi" 100 100).1 = true ∧
      (pickSize measureLen "hi" 100 100).1 ∈ candidateSizes ∧
      11 ≤ (pickSize measureLen "hi" 100 100).1) :=
  ⟨⟨by decide, fitsAt_measureLen_hi 11 (by decide)⟩,
    textfit_largest measureLen "hi" 100 100 11 (by decide)
      (fitsAt_measureLen_hi 11 (by decide))⟩

/-- C6: the text-fit routine is total and always yields a usable
(size, wrapped-lines) pair — the wrapped lines returned are exactly the
wrap of the text at the chosen size's wrap width — and when no candidate
size satisfies both constraints it falls back to the minimum candidate
size 6, accepting it regardless of fit. -/
theorem textfit_total_fallback (measure : String → Nat → ℚ) (text : String)
    (max_w max_h : ℚ) :
    (pickSize measure text max_w max_h).2
        = wrapGreedy text (wrapWidth max_w (pickSize measure text max_w max_h).1) ∧
    ((∀ s ∈ candidateSizes, fitsAt measure text max_w max_h s = false) →
      pickSize measure text max_w max_h = (6, wrapGreedy text (wrapWidth max_w 6))) :=
  ⟨pickSize_snd measure text max_w max_h, fun h => pickSize_none measure text max_w max_h h⟩

/-- Witness for C6: under a measure reporting width 1000 for every line,
nothing fits a width-5 cell at any candidate size, and the routine still
returns the fallback pair at size 6. -/
theorem textfit_total_fallback_witness :
    (∀ s ∈ candidateSizes, fitsAt measureWide "hello" 5 50 s = false) ∧
    pickSize measureWide "hello" 5 50 = (6, wrapGreedy "hello" (wrapWidth 5 6)) :=
  ⟨fun s _ => fitsAt_measureWide_hello s,
    (textfit_total_fallback measureWide "hello" 5 50).2 (fun s _ => fitsAt_measureWide_hello s)⟩

/-- C9 counterexample: under the proportional Helvetica metrics (letter i
has advance width 222/1000 em, letter W has 944/1000 em) the strictly
longer string `"ii"` measures narrower than `"W"`, so in a cell with
`max_w = 8`, `max_h = 20` the routine picks size 11 for `"ii"` but only
size 8 for the shorter `"W"` — the longer string yields a strictly larger
chosen font size, refuting the claimed monotonicity in string length. -/
theorem textfit_monotone_cex :
    "W".length < "ii".length ∧
    (pickSize measureHelv "W" 8 20).1 = 8 ∧
    (pickSize measureHelv "ii" 8 20).1 = 11 ∧
    (pickSize measureHelv "W" 8 20).1 < (pickSize measureHelv "ii" 8 20).1 := by
  refine ⟨by decide, pickSize_helv_W, pickSize_helv_ii, ?_⟩
  rw [pickSize_helv_W, pickSize_helv_ii]
  omega

/-- C9 amended: the chosen size is monotone with respect to fit dominance
rather than string length: if at every candidate size at which `t₂` fits,
`t₁` fits as well, then the size chosen for `t₂` is at most the size
chosen for `t₁`.  (Length alone does not imply this relation for a
proportional text measure, see the counterexample.) -/
theorem textfit_dominance (measure : String → Nat → ℚ) (t₁ t₂ : String) (max_w max_h : ℚ)
    (hdom : ∀ s ∈ candidateSizes, fitsAt measure t₂ max_w max_h s = true →
      fitsAt measure t₁ max_w max_h s = true) :
    (pickSize measure t₂ max_w max_h).1 ≤ (pickSize measure t₁ max_w max_h).1 := by
  rcases pickSize_fst_mem_or_six measure t₂ max_w max_h with h6 | ⟨hmem, hfits⟩
  · rw [h6]
    exact (pickSize_bounds measure t₁ max_w max_h).1
  · exact (pickSize_ge_of_fits measure t₁ max_w max_h _ hmem (hdom _ hmem hfits)).1

/-- Witness for the amended C9: `"hi"` fits at every candidate size in a
100×100 box under the fixed-pitch measure, so it dominates `"hihi"` and
receives at least as large a size. -/
theorem textfit_dominance_witness :
    (∀ s ∈ candidateSizes, fitsAt measureLen "hihi" 100 100 s = true →
      fitsAt measureLen "hi" 100 100 s = true) ∧
    (pickSize measureLen "hihi" 100 100).1 ≤ (pickSize measureLen "hi" 100 100).1 :=
  ⟨fun s hs _ => fitsAt_measureLen_hi s hs,
    textfit_dominance measureLen "hi" "hihi" 100 100 (fun s hs _ => fitsAt_measureLen_hi s hs)⟩

/-- C10: for every cell text and arbitrary cell geometry — including
degenerate cells whose padded width `w - 2*padding` is non-positive — the
layout computation of `_draw_cell_text` is total, the chosen font size
always lies in the closed range [6, 11] (the fallback reuses the minimum
candidate size 6), and the character wrap width handed to the word-wrapper
is always at least 8. -/
theorem textfit_size_range (measure : String → Nat → ℚ) (text : String) (w h : ℚ) :
    6 ≤ (draw_cell_text measure text w h).1 ∧
    (draw_cell_text measure text w h).1 ≤ 11 ∧
    ∀ (mw : ℚ) (size : Nat), 8 ≤ wrapWidth mw size := by
  refine ⟨?_, ?_, fun mw size => wrapWidth_ge mw size⟩
  · exact (pickSize_bounds measure text (w - 2 * 4) (h - 2 * 4)).1
  · exact (pickSize_bounds measure text (w - 2 * 4) (h - 2 * 4)).2

/-! ## Claim theorems: page geometry -/

theorem grid_height_pos : 0 < grid_height := by
  norm_num [grid_height, grid_top, grid_bottom, title_y, footer_y, MARGIN, HEADER_GAP,
    FOOTER_GAP, TITLE_FONT_SIZE, FOOTER_FONT_SIZE, PAGE_HEIGHT, inch]

/-- C7: for all `rows, cols ≥ 1`, every cell rectangle has the same width
`usable_w / cols` and the same height `grid_height / rows`; row 0 sits at
the top of the grid region (its top edge is `grid_top`, and the vertical
position strictly decreases with the row index); the `rows × cols`
rectangles exactly partition the grid region — the sum of their areas
equals the grid region's area, horizontally adjacent cells share their
vertical border, and vertically adjacent cells share their horizontal
border, with no gap or overlap (exact rational arithmetic). -/
theorem grid_geometry (rows cols : Nat) (h1 : 1 ≤ rows) (h2 : 1 ≤ cols) :
    (∀ r c, (cellRect rows cols r c).w = usable_w / (cols : ℚ) ∧
      (cellRect rows cols r c).h = grid_height / (rows : ℚ)) ∧
    (cellRect rows cols 0 0).y + cell_h rows = grid_top ∧
    (∀ r₁ r₂ c, r₁ < r₂ → r₂ < rows →
      (cellRect rows cols r₂ c).y < (cellRect rows cols r₁ c).y) ∧
    (Finset.range rows).sum (fun _ =>
        (Finset.range cols).sum (fun _ => cell_w cols * cell_h rows))
      = usable_w * grid_height ∧
    (∀ r c, (cellRect rows cols r (c + 1)).x = (cellRect rows cols r c).x + cell_w cols) ∧
    (∀ r c, (cellRect rows cols (r + 1) c).y + cell_h rows = (cellRect rows cols r c).y) := by
  have hrq : ((rows : ℚ)) ≠ 0 := by
    have : (1 : ℚ) ≤ (rows : ℚ) := by exact_mod_cast h1
    linarith
  have hcq : ((cols : ℚ)) ≠ 0 := by
    have : (1 : ℚ) ≤ (cols : ℚ) := by exact_mod_cast h2
    linarith
  refine ⟨fun r c => ⟨rfl, rfl⟩, ?_, ?_, ?_, ?_, ?_⟩
  · have hg : grid_height = grid_top - grid_bottom := rfl
    simp only [cellRect, cell_h]
    push_cast
    field_simp
    rw [hg]
    ring
  · intro r₁ r₂ c hlt hub
    simp only [cellRect]
    have hch : 0 < cell_h rows := by
      apply div_pos grid_height_pos
      have : (1 : ℚ) ≤ (rows : ℚ) := by exact_mod_cast h1
      linarith
    have hrr : (r₁ : ℚ) < (r₂ : ℚ) := by exact_mod_cast hlt
    have := mul_lt_mul_of_pos_right (show (rows : ℚ) - 1 - (r₂ : ℚ) < (rows : ℚ) - 1 - (r₁ : ℚ)
      by linarith) hch
    linarith
  · rw [Finset.sum_const, Finset.sum_const, Finset.card_range, Finset.card_range,
      smul_smul, nsmul_eq_mul]
    show ((rows * cols : Nat) : ℚ) * (usable_w / (cols : ℚ) * (grid_height / (rows : ℚ)))
      = usable_w * grid_height
    push_cast
    field_simp
    ring
  · intro r c
    simp only [cellRect]
    push_cast
    ring
  · intro r c
    simp only [cellRect]
    push_cast
    ring

/-- Witness for C7 at the default 5×5 grid. -/
theorem grid_geometry_witness :
    ((1 : Nat) ≤ 5 ∧ (1 : Nat) ≤ 5) ∧
    ((∀ r c, (cellRect 5 5 r c).w = usable_w / ((5 : Nat) : ℚ) ∧
        (cellRect 5 5 r c).h = grid_height / ((5 : Nat) : ℚ)) ∧
      (cellRect 5 5 0 0).y + cell_h 5 = grid_top ∧
      (∀ r₁ r₂ c, r₁ < r₂ → r₂ < 5 →
        (cellRect 5 5 r₂ c).y < (cellRect 5 5 r₁ c).y) ∧
      (Finset.range 5).sum (fun _ =>
          (Finset.range 5).sum (fun _ => cell_w 5 * cell_h 5))
        = usable_w * grid_height ∧
      (∀ r c, (cellRect 5 5 r (c + 1)).x = (cellRect 5 5 r c).x + cell_w 5) ∧
      (∀ r c, (cellRect 5 5 (r + 1) c).y + cell_h 5 = (cellRect 5 5 r c).y)) :=
  ⟨⟨by decide, by decide⟩, grid_geometry 5 5 (by decide) (by decide)⟩

/-! ## Claim theorems: driver -/

theorem getD_eq_of_lt {α : Type} (l : List α) (d : α) (i : Nat) (h : i < l.length) :
    l.getD i d = l[i] := by
  simp [List.getD_eq_getElem?_getD, List.getElem?_eq_getElem h]

/-- C4: the pool-size check of `generate_pdf` runs up front, before any
page exists: when `len(items) < cells_needed` the run fails with the
diagnostic reporting the required and available counts and produces no
pages at all, and when `len(items) ≥ cells_needed` the run proceeds and
produces its pages. -/
theorem generate_pdf_pool_check (sample : Nat → List String) (items : List String)
    (rows cols numCards : Nat) (useFree : Bool) (freeText : String) :
    (items.length < cellsNeeded rows cols useFree →
      generate_pdf sample items rows cols numCards useFree freeText
        = Except.error
            (insufficientMsg (cellsNeeded rows cols useFree) items.length rows cols)) ∧
    (cellsNeeded rows cols useFree ≤ items.length →
      ∃ pages, generate_pdf sample items rows cols numCards useFree freeText
          = Except.ok pages ∧ pages.length = numCards) := by
  constructor
  · intro h
    unfold generate_pdf
    rw [if_pos h]
  · intro h
    refine ⟨(List.range numCards).map (fun i =>
      draw_card (generate_card (sample (i + 1)) rows cols useFree freeText) (i + 1)),
      ?_, by simp⟩
    unfold generate_pdf
    rw [if_neg (by omega)]

/-- Witness for C4: a 3×3 card without free space needs 9 items — a pool
of 8 fails with the error message naming 9 and 8, a pool of 9 succeeds
(and its failing run produced no pages). -/
theorem generate_pdf_pool_check_witness :
    ((["a", "b", "c", "d", "e", "f", "g", "h"] : List String).length
        < cellsNeeded 3 3 false ∧
      generate_pdf (fun _ => []) ["a", "b", "c", "d", "e", "f", "g", "h"] 3 3 2 false "FREE"
        = Except.error (insufficientMsg (cellsNeeded 3 3 false)
            (["a", "b", "c", "d", "e", "f", "g", "h"] : List String).length 3 3) ∧
      insufficientMsg (cellsNeeded 3 3 false) 8 3 3
        = "Error: need at least 9 unique items to fill a 3x3 card, but only 8 were provided.") ∧
    (cellsNeeded 3 3 false
        ≤ (["a", "b", "c", "d", "e", "f", "g", "h", "i"] : List String).length ∧
      ∃ pages, generate_pdf (fun _ => ["a", "b", "c", "d", "e", "f", "g", "h", "i"])
          ["a", "b", "c", "d", "e", "f", "g", "h", "i"] 3 3 2 false "FREE"
            = Except.ok pages ∧ pages.length = 2) :=
  ⟨⟨by decide,
      (generate_pdf_pool_check (fun _ => []) ["a", "b", "c", "d", "e", "f", "g", "h"]
        3 3 2 false "FREE").1 (by decide), by decide⟩,
    ⟨by decide,
      (generate_pdf_pool_check (fun _ => ["a", "b", "c", "d", "e", "f", "g", "h", "i"])
        ["a", "b", "c", "d", "e", "f", "g", "h", "i"] 3 3 2 false "FREE").2 (by decide)⟩⟩

/-- C8: a successful run yields exactly `numCards` pages in generation
order, numbering the cards 1 through `numCards`; the footer drawn on page
N reads exactly `"Card #N"` (1-indexed). -/
theorem generate_pdf_pages (sample : Nat → List String) (items : List String)
    (rows cols numCards : Nat) (useFree : Bool) (freeText : String) (pages : List Page)
    (hn : 1 ≤ numCards)
    (h : generate_pdf sample items rows cols numCards useFree freeText = Except.ok pages) :
    pages.length = numCards ∧
    ∀ n, 1 ≤ n → n ≤ numCards →
      (pages.getD (n - 1) emptyPage).footer = "Card #" ++ toString n ∧
      (pages.getD (n - 1) emptyPage).cardNumber = n := by
  unfold generate_pdf at h
  by_cases hlt : items.length < cellsNeeded rows cols useFree
  · rw [if_pos hlt] at h
    cases h
  · rw [if_neg hlt] at h
    injection h with h
    subst h
    constructor
    · simp
    · intro n hn1 hn2
      have hb : n - 1 < ((List.range numCards).map (fun i =>
          draw_card (generate_card (sample (i + 1)) rows cols useFree freeText)
            (i + 1))).length := by
        simp
        omega
      rw [getD_eq_of_lt _ _ _ hb]
      rw [List.getElem_map, List.getElem_range]
      rw [show n - 1 + 1 = n by omega]
      exact ⟨rfl, rfl⟩

/-- Witness for C8: two 2×2 cards from a 4-item pool; the two pages carry
footers "Card #1" and "Card #2". -/
theorem generate_pdf_pages_witness :
    ((1 : Nat) ≤ 2 ∧
      generate_pdf (fun _ => ["a", "b", "c", "d"]) ["a", "b", "c", "d"] 2 2 2 false "FREE"
        = Except.ok ((List.range 2).map (fun i =>
            draw_card (generate_card ["a", "b", "c", "d"] 2 2 false "FREE") (i + 1)))) ∧
    (((List.range 2).map (fun i =>
        draw_card (generate_card ["a", "b", "c", "d"] 2 2 false "FREE") (i + 1))).length = 2 ∧
      ∀ n, 1 ≤ n → n ≤ 2 →
        ((((List.range 2).map (fun i =>
            draw_card (generate_card ["a", "b", "c", "d"] 2 2 false "FREE")
              (i + 1))).getD (n - 1) emptyPage).footer = "Card #" ++ toString n ∧
          (((List.range 2).map (fun i =>
            draw_card (generate_card ["a", "b", "c", "d"] 2 2 false "FREE")
              (i + 1))).getD (n - 1) emptyPage).cardNumber = n)) :=
  ⟨⟨by decide, rfl⟩,
    generate_pdf_pages (fun _ => ["a", "b", "c", "d"]) ["a", "b", "c", "d"] 2 2 2 false
      "FREE" _ (by decide) rfl⟩

end Bingo
